import Mathlib

/-!
# Verification of the KDSH narrative-consistency checker retrieval core

A shallow embedding in Lean 4 of the retrieval subsystem of the repository:

* `src/src2/vectorstore.py` — `FaissVectorStore` (`add_vectors`, `load`, `search`)
  together with a model of the FAISS `IndexFlatL2` flat index it wraps;
* `src/src2/embedding.py` — `EmbeddingPipeline.chunk_documents` (per-source
  sequential chunk-id assignment);
* `src/main4.py` — `get_evidence_for_row` (multi-query evidence aggregation)
  and `verify_consistency` (default-verdict policy around the external judge).

Modelling conventions:

* Python floats (embedding coordinates, distances) are modelled as exact
  rationals `ℚ`; the code only adds, subtracts, multiplies and compares them.
* A 2-D numpy array is modelled as its list of rows `List (List ℚ)`; numpy
  arrays are rectangular, so `shape[1]` is the length of the first row.
* External collaborators (the sentence-transformer encoder, the LLM judge,
  `ftfy` text repair, the langchain text splitter) enter as function
  parameters or, for `ftfy.fix_text`, as the identity on already-repaired
  text; the core never inspects their output except as data.
* Python's stable `list.sort(key=...)` and the ascending-by-distance order
  produced by FAISS are modelled with the stable `List.insertionSort`
  (tie order in FAISS is implementation-defined, see spec §4.3).
* Fallible operations (`faiss Index.add` dimension assertion) return
  `Except`; raising before mutating leaves the caller's state unchanged,
  which the functional embedding renders by returning no new state.
-/

namespace KdshRag

/-- A metadata record stored alongside each vector:
`{"text": ..., "chunk_id": ..., "source": ...}` (built in
`build_and_query.py` and consumed by `vectorstore.py`). -/
structure ChunkMeta where
  text : String
  chunk_id : Nat
  source : String
deriving DecidableEq, Repr, Inhabited

/-- A search result dict as produced by `FaissVectorStore.search`:
`{"chunk_id": ..., "source": ..., "text": ..., "distance": ...}`. -/
structure Evidence where
  chunk_id : Nat
  source : String
  text : String
  distance : ℚ
deriving DecidableEq, Repr, Inhabited

/-- `shape[1]` of a non-empty rectangular 2-D numpy array: the common row
length, read off the first row.  `add_vectors` only evaluates it after
checking the array is non-empty. -/
def shape1 (a : List (List ℚ)) : Nat := (a.headD []).length

/-- Squared Euclidean (L2) distance, the metric of `faiss.IndexFlatL2`:
the sum over coordinates of the squared difference. -/
def sqDist (q v : List ℚ) : ℚ :=
  ((q.zip v).map (fun p => (p.1 - p.2) * (p.1 - p.2))).foldl (· + ·) 0

/-- Model of a `faiss.IndexFlatL2`: the fixed dimension `d` it was created
with, and the stored vectors `xb` in insertion order. -/
structure FaissIndex where
  d : Nat
  xb : List (List ℚ)
deriving DecidableEq, Repr

/-- `faiss.Index.add`: asserts that the new vectors have the index's
dimension, then appends them; on mismatch it raises (modelled as
`Except.error`) before any mutation happens. -/
def FaissIndex.add (idx : FaissIndex) (vs : List (List ℚ)) : Except String FaissIndex :=
  if shape1 vs = idx.d then .ok ⟨idx.d, idx.xb ++ vs⟩ else .error "dimension mismatch"

/-- One row of the `D, I = index.search(xq, k)` result of `IndexFlatL2`:
the up-to-`k` nearest stored vectors as `(index, squared-L2-distance)`
pairs, ascending by distance, padded with index `-1` when fewer than `k`
vectors are stored.  The distance stored in a padding entry is irrelevant:
every consumer drops entries with index `-1`.  FAISS leaves the order of
equal distances implementation-defined (spec §4.3); the model fixes it as
the stable sort by distance over insertion order. -/
def FaissIndex.searchRow (idx : FaissIndex) (q : List ℚ) (k : Nat) : List (Int × ℚ) :=
  let scored := idx.xb.enum.map (fun p => ((p.1 : Int), sqDist q p.2))
  (scored.insertionSort (fun a b => a.2 ≤ b.2)).take k
    ++ List.replicate (k - idx.xb.length) ((-1 : Int), 0)

/-- `faiss.Index.search` on a whole query matrix: one result row per query
row. -/
def FaissIndex.faissSearch (idx : FaissIndex) (xq : List (List ℚ)) (k : Nat) :
    List (List (Int × ℚ)) :=
  xq.map (fun q => idx.searchRow q k)

/-- In-memory state of a `FaissVectorStore`: `self.index` (`None` until the
first `add_vectors` or a successful `load`) and the parallel
`self.metadata` list. -/
structure FaissVectorStore where
  index : Option FaissIndex
  metadata : List ChunkMeta
deriving DecidableEq, Repr

/-- `self.index.ntotal`, taking the never-built store as `0`. -/
def FaissVectorStore.ntotal (s : FaissVectorStore) : Nat :=
  match s.index with
  | none => 0
  | some idx => idx.xb.length

/-- The stored vector array, taking the never-built store as empty. -/
def FaissVectorStore.storedVectors (s : FaissVectorStore) : List (List ℚ) :=
  match s.index with
  | none => []
  | some idx => idx.xb

/-- `FaissVectorStore.add_vectors` (vectorstore.py lines 23–42): early
return on an empty batch; otherwise create the FAISS index on first use
with the batch's dimension, `index.add` the vectors (which raises on a
dimension mismatch, before the metadata line runs), then extend the
metadata list. -/
def FaissVectorStore.add_vectors (s : FaissVectorStore) (vectors : List (List ℚ))
    (metadatas : List ChunkMeta) : Except String FaissVectorStore :=
  if vectors.length = 0 then .ok s
  else
    let idx0 := match s.index with
      | none => FaissIndex.mk (shape1 vectors) []
      | some i => i
    match idx0.add vectors with
    | .error e => .error e
    | .ok idx1 => .ok { index := some idx1, metadata := s.metadata ++ metadatas }

/-- The two persisted artifacts of a store directory, each `none` when the
file is absent: `index.faiss` (parsed as a `FaissIndex`) and
`metadata.pkl` (parsed as the metadata list). -/
structure DiskState where
  faiss_file : Option FaissIndex
  meta_file : Option (List ChunkMeta)

/-- `FaissVectorStore.load` (vectorstore.py lines 63–79): if either artifact
is absent, report "no existing index" by returning `false` and leave the
store untouched; otherwise read both files into the store and return
`true`. -/
def FaissVectorStore.load (s : FaissVectorStore) (disk : DiskState) :
    FaissVectorStore × Bool :=
  match disk.faiss_file, disk.meta_file with
  | some idx, some meta => ({ index := some idx, metadata := meta }, true)
  | some _, none => (s, false)
  | none, _ => (s, false)

/-- The body of the result loop of `FaissVectorStore.search` (vectorstore.py
lines 93–104): skip a `-1` padding entry (`if idx == -1: continue`),
otherwise translate the index back to its metadata record and attach the
distance.  `self.metadata[idx]` would raise `IndexError` were the metadata
list shorter than the vector count; the `getD` fallback record is
unreachable under the co-indexing invariant. -/
def FaissVectorStore.toEvidence (s : FaissVectorStore) (p : Int × ℚ) : Option Evidence :=
  if p.1 = -1 then none
  else
    let chunk_data := s.metadata.getD p.1.toNat ⟨"", 0, ""⟩
    some { chunk_id := chunk_data.chunk_id, source := chunk_data.source,
           text := chunk_data.text, distance := p.2 }

/-- `FaissVectorStore.search` (vectorstore.py lines 81–106): empty result on
an unbuilt or empty index; otherwise run the FAISS search and consume only
the first result row (`I[0]`, `D[0]`).  An empty query matrix would raise
`IndexError` at `I[0]` in the source; every caller passes exactly one
row. -/
def FaissVectorStore.search (s : FaissVectorStore) (query_vector : List (List ℚ))
    (top_k : Nat) : List Evidence :=
  match s.index with
  | none => []
  | some idx =>
    if idx.xb.length = 0 then []
    else
      match idx.faissSearch query_vector top_k with
      | [] => []
      | row0 :: _ => row0.filterMap s.toEvidence

/-! ## Chunking and per-source id assignment (`src/src2/embedding.py`) -/

/-- A langchain `Document` as the chunker sees it: its text and the
`source` entry of its metadata dict (`none` when the key is absent; the
loop reads it with `metadata.get('source', 'unknown')`). -/
structure Document where
  page_content : String
  source : Option String
deriving DecidableEq, Repr

/-- A chunk after `chunk_documents` tagged it: the original text and
metadata plus the assigned `chunk_id`. -/
structure TaggedChunk where
  page_content : String
  source : Option String
  chunk_id : Nat
deriving DecidableEq, Repr

/-- The source key a chunk is counted under:
`chunk.metadata.get('source', 'unknown')`. -/
def TaggedChunk.sourceName (c : TaggedChunk) : String := c.source.getD "unknown"

/-- The id-assignment loop of `chunk_documents` (embedding.py lines 43–55).
The `chunk_counters` dict, whose missing keys are lazily initialised to
`0`, is modelled as a total function defaulting to `0`; each chunk gets
the current counter of its source, which is then incremented. -/
def chunkIdLoop (counters : String → Nat) : List Document → List TaggedChunk
  | [] => []
  | chunk :: rest =>
    let source := chunk.source.getD "unknown"
    let cid := counters source
    ⟨chunk.page_content, chunk.source, cid⟩ ::
      chunkIdLoop (fun s => if s = source then cid + 1 else counters s) rest

/-- `EmbeddingPipeline.chunk_documents` (embedding.py lines 25–63): empty
input short-circuits to an empty output; otherwise the external
`RecursiveCharacterTextSplitter.split_documents` (the `split` parameter)
produces the raw chunks, which the id-assignment loop then tags. -/
def chunk_documents (split : List Document → List Document)
    (documents : List Document) : List TaggedChunk :=
  match documents with
  | [] => []
  | _ => chunkIdLoop (fun _ => 0) (split documents)

/-! ## Evidence aggregation (`src/main4.py`) -/

/-- An input row of the batch CSV, restricted to the fields the modelled
functions read; `none` models a missing column (`row.get` default). -/
structure Row where
  char : Option String
  caption : Option String
  content : Option String
deriving DecidableEq, Repr

/-- `clean_text` (main4.py lines 40–42) on a present value: `ftfy.fix_text`
is the external encoding-repair collaborator (spec §1, §6) and is modelled
as the identity on already-repaired text, so what remains is
`str(text).strip()`. -/
def clean_text (text : String) : String := text.trim

/-- The query string built for one fact:
`f"{char_name} ({caption}): {fact}"` with `char_name` and `caption`
cleaned from the row (main4.py lines 128–129, 135). -/
def queryText (row : Row) (fact : String) : String :=
  let char_name := clean_text (row.char.getD "")
  let caption := clean_text (row.caption.getD "")
  s!"{char_name} ({caption}): {fact}"

/-- The body of the inner result loop of `get_evidence_for_row` (main4.py
lines 139–142): insert `r` into the insertion-ordered `collected_chunks`
dict under its `chunk_id` unless that key is already present. -/
def collectOne (m : List (Nat × Evidence)) (r : Evidence) : List (Nat × Evidence) :=
  if (m.map Prod.fst).contains r.chunk_id then m else m ++ [(r.chunk_id, r)]

/-- `get_evidence_for_row` (main4.py lines 127–150).  `encode` is the
external sentence-transformer; `embedder.model.encode([q])` yields the
one-row query matrix `[encode q]`.  The insertion-ordered dict becomes an
association list, `dict.values()` its second components, and the two
stable `list.sort(key=...)` calls become stable `insertionSort`s. -/
def get_evidence_for_row (encode : String → List ℚ) (row : Row)
    (store : FaissVectorStore) (facts : List String) : List Evidence :=
  let collected_chunks := facts.foldl (fun m fact =>
    let q := queryText row fact
    let vec := [encode q]
    let results := store.search vec 3
    results.foldl collectOne m) []
  let all_chunks := (collected_chunks.map Prod.snd).insertionSort
    (fun a b => a.distance ≤ b.distance)
  let top_chunks := all_chunks.take 10
  top_chunks.insertionSort (fun a b => a.chunk_id ≤ b.chunk_id)

/-- The reference evidence-aggregation computation, written from the spec's
words (§4.4, steps 1–4): per-query search results in order; a mapping
keyed by `chunk_id` keeping the first-seen item per key (realised as the
first-seen key order paired with a first-occurrence lookup); ascending
stable sort by distance; truncation to 10; ascending stable re-sort by
`chunk_id`. -/
def specEvidenceAggregation (encode : String → List ℚ) (row : Row)
    (store : FaissVectorStore) (facts : List String) : List Evidence :=
  let per_query := facts.map (fun fact => store.search [encode (queryText row fact)] 3)
  let all_results := per_query.flatten
  let seen_ids := all_results.foldl
    (fun ks r => if ks.contains r.chunk_id then ks else ks ++ [r.chunk_id]) []
  let merged := seen_ids.filterMap
    (fun cid => all_results.find? (fun r => r.chunk_id == cid))
  let by_distance := merged.insertionSort (fun a b => a.distance ≤ b.distance)
  let top10 := by_distance.take 10
  top10.insertionSort (fun a b => a.chunk_id ≤ b.chunk_id)

/-- The distinct-count denominator of spec §8: the `chunk_id`s of every
result retrieved across all queries of one `get_evidence_for_row` call. -/
def retrievedChunkIds (encode : String → List ℚ) (row : Row)
    (store : FaissVectorStore) (facts : List String) : List Nat :=
  ((facts.map (fun fact => store.search [encode (queryText row fact)] 3)).flatten).map
    (fun r => r.chunk_id)

/-! ## Verdict layer (`src/main4.py`, `verify_consistency`) -/

/-- What comes back from the judge collaborator
(`safe_api_call_with_fallback` plus `json.loads`): all models failed
(`None` response), a response `json.loads` rejects, or a parsed JSON
object with its optional `prediction` and `rationale` fields. -/
inductive JudgeReply where
  | apiFailure : JudgeReply
  | malformed : String → JudgeReply
  | parsed : Option Int → Option String → JudgeReply

/-- The dict `verify_consistency` returns: a `prediction` and, when the
parsed judge object carried none, possibly no `rationale`. -/
structure Verdict where
  prediction : Int
  rationale : Option String
deriving DecidableEq, Repr

/-- `RETRIEVAL_STRATEGY == "FACTS"`, evaluated: main4.py line 30 fixes
`RETRIEVAL_STRATEGY = "STORY"`, so the fact-extraction branch is dead. -/
def retrievalStrategyIsFacts : Bool := false

/-- `verify_consistency` (main4.py lines 152–228).  `extractFacts` models
`extract_facts` (an LLM call, unused under the `"STORY"` strategy) and
`judge` models the prompt construction plus `safe_api_call_with_fallback`
plus `json.loads`, i.e. the external judge collaborator applied to the
request's row and ordered evidence.  The fallback structure of the source
is kept exactly: empty evidence short-circuits to the benefit-of-doubt
verdict; a `None` response keeps the initial `"API Error"` default; a
`JSONDecodeError` yields the `"JSON Parse Error"` default; a parsed object
missing `"prediction"` has it set to `1`. -/
def verify_consistency (encode : String → List ℚ)
    (extractFacts : String → String → String → List String)
    (judge : Row → List Evidence → JudgeReply)
    (row : Row) (store : FaissVectorStore) : Verdict :=
  let backstory := clean_text (row.content.getD "")
  let char_name := clean_text (row.char.getD "Unknown Character")
  let caption := clean_text (row.caption.getD "No Caption")
  let facts := if retrievalStrategyIsFacts then extractFacts backstory char_name caption
    else [backstory]
  let evidence_items := get_evidence_for_row encode row store facts
  if evidence_items.isEmpty then
    { prediction := 1, rationale := some "No evidence found (Benefit of Doubt)" }
  else
    match judge row evidence_items with
    | .apiFailure => { prediction := 1, rationale := some "API Error" }
    | .malformed _ => { prediction := 1, rationale := some "JSON Parse Error" }
    | .parsed p r => { prediction := p.getD 1, rationale := r }

/-- String containment, used to state "rationale contains \"No evidence\"". -/
def strContains (s pat : String) : Prop := ∃ pre post, s = pre ++ pat ++ post

/-- The full record set of a store scored against one query vector: every
stored position with its metadata record and its squared-L2 distance to
the query.  `search` with a large enough `top_k` returns exactly these. -/
def allEvidence (s : FaissVectorStore) (q : List ℚ) : List Evidence :=
  match s.index with
  | none => []
  | some idx => idx.xb.enum.map (fun p =>
      let cd := s.metadata.getD p.1 ⟨"", 0, ""⟩
      { chunk_id := cd.chunk_id, source := cd.source, text := cd.text,
        distance := sqDist q p.2 })

instance : IsTotal (Int × ℚ) (fun a b => a.2 ≤ b.2) := ⟨fun _ _ => le_total _ _⟩

instance : IsTrans (Int × ℚ) (fun a b => a.2 ≤ b.2) := ⟨fun _ _ _ => le_trans⟩

instance : IsTotal Evidence (fun a b => a.distance ≤ b.distance) := ⟨fun _ _ => le_total _ _⟩

instance : IsTrans Evidence (fun a b => a.distance ≤ b.distance) := ⟨fun _ _ _ => le_trans⟩

instance : IsTotal Evidence (fun a b => a.chunk_id ≤ b.chunk_id) := ⟨fun _ _ => le_total _ _⟩

instance : IsTrans Evidence (fun a b => a.chunk_id ≤ b.chunk_id) := ⟨fun _ _ _ => le_trans⟩

/-! ## Theorems -/

/-- C10: `search` consumes only `I[0]`/`D[0]`: with more than one query row
in the matrix, the result equals the result for the first row alone —
neighbor matches of every later row are discarded. -/
theorem search_uses_only_first_query_row (s : FaissVectorStore) (q : List ℚ)
    (rest : List (List ℚ)) (k : Nat) :
    s.search (q :: rest) k = s.search [q] k := by
  obtain ⟨index, metadata⟩ := s
  cases index with
  | none => rfl
  | some idx => simp [FaissVectorStore.search, FaissIndex.faissSearch]

/-- C8: `load` on a store directory with either artifact absent returns the
non-fatal `false` signal, leaving the store untouched; only when both
artifacts are present does it load index and metadata and return
`true`. -/
theorem load_reports_not_found_nonfatally (s : FaissVectorStore) (disk : DiskState) :
    ((disk.faiss_file = none ∨ disk.meta_file = none) → s.load disk = (s, false))
    ∧ (∀ idx meta, disk.faiss_file = some idx → disk.meta_file = some meta →
        s.load disk = ({ index := some idx, metadata := meta }, true)) := by
  obtain ⟨ff, mf⟩ := disk
  constructor
  · intro h
    cases ff <;> cases mf <;> simp_all [FaissVectorStore.load]
  · intro idx meta hf hm
    cases ff <;> cases mf <;> simp_all [FaissVectorStore.load]

theorem load_reports_not_found_nonfatally_witness :
    (FaissVectorStore.mk none []).load ⟨none, none⟩ = (FaissVectorStore.mk none [], false)
    ∧ (FaissVectorStore.mk none []).load ⟨some ⟨1, [[0]]⟩, some [⟨"t", 0, "s"⟩]⟩
        = ({ index := some ⟨1, [[0]]⟩, metadata := [⟨"t", 0, "s"⟩] }, true) :=
  ⟨(load_reports_not_found_nonfatally ⟨none, []⟩ ⟨none, none⟩).1 (Or.inl rfl),
   (load_reports_not_found_nonfatally ⟨none, []⟩ ⟨some ⟨1, [[0]]⟩, some [⟨"t", 0, "s"⟩]⟩).2
     ⟨1, [[0]]⟩ [⟨"t", 0, "s"⟩] rfl rfl⟩

/-- Evaluation of `add_vectors` on an empty batch: the early return. -/
theorem add_vectors_nil (s : FaissVectorStore) (ms : List ChunkMeta) :
    s.add_vectors [] ms = .ok s := rfl

/-- Evaluation of `add_vectors` on a never-built store: the index is created
with the batch's dimension, so the dimension check always passes. -/
theorem add_vectors_of_none (s : FaissVectorStore) (vs : List (List ℚ))
    (ms : List ChunkMeta) (h0 : s.index = none) (hz : vs ≠ []) :
    s.add_vectors vs ms = .ok ⟨some ⟨shape1 vs, vs⟩, s.metadata ++ ms⟩ := by
  have hz' : ¬ vs.length = 0 := by simpa using hz
  simp [FaissVectorStore.add_vectors, hz', h0, FaissIndex.add]

/-- Evaluation of `add_vectors` on a built store when the dimension
matches. -/
theorem add_vectors_of_some (s : FaissVectorStore) (idx : FaissIndex)
    (vs : List (List ℚ)) (ms : List ChunkMeta) (h0 : s.index = some idx)
    (hz : vs ≠ []) (hd : shape1 vs = idx.d) :
    s.add_vectors vs ms = .ok ⟨some ⟨idx.d, idx.xb ++ vs⟩, s.metadata ++ ms⟩ := by
  have hz' : ¬ vs.length = 0 := by simpa using hz
  simp [FaissVectorStore.add_vectors, hz', h0, FaissIndex.add, hd]

/-- Evaluation of `add_vectors` on a built store when the dimension does not
match: the `index.add` assertion fires. -/
theorem add_vectors_of_mismatch (s : FaissVectorStore) (idx : FaissIndex)
    (vs : List (List ℚ)) (ms : List ChunkMeta) (h0 : s.index = some idx)
    (hz : vs ≠ []) (hd : shape1 vs ≠ idx.d) :
    s.add_vectors vs ms = .error "dimension mismatch" := by
  have hz' : ¬ vs.length = 0 := by simpa using hz
  simp [FaissVectorStore.add_vectors, hz', h0, FaissIndex.add, hd]

/-- C2: under the caller obligation `len(vectors) == len(metadatas)` and the
co-indexing invariant on the input store, every successful `add_vectors`
appends to the vector array and the metadata list pairwise, so the counts
stay equal and position `i` of the appended vectors lines up with
`metadatas[i]`. -/
theorem add_vectors_keeps_coindexing (s : FaissVectorStore) (vs : List (List ℚ))
    (ms : List ChunkMeta) (hlen : vs.length = ms.length)
    (hinv : s.ntotal = s.metadata.length) :
    ∀ s2, s.add_vectors vs ms = .ok s2 →
      s2.ntotal = s2.metadata.length
      ∧ s2.storedVectors = s.storedVectors ++ vs
      ∧ s2.metadata = s.metadata ++ ms := by
  intro s2 h
  by_cases hz : vs = []
  · subst hz
    have hm : ms = [] := List.eq_nil_of_length_eq_zero (by simpa using hlen.symm)
    subst hm
    rw [add_vectors_nil] at h
    cases h
    exact ⟨hinv, by simp, by simp⟩
  · cases h0 : s.index with
    | none =>
      rw [add_vectors_of_none s vs ms h0 hz] at h
      cases h
      have hmeta : s.metadata = [] := by
        apply List.eq_nil_of_length_eq_zero
        have : s.ntotal = 0 := by simp [FaissVectorStore.ntotal, h0]
        omega
      refine ⟨?_, ?_, rfl⟩
      · simp [FaissVectorStore.ntotal, hmeta, hlen]
      · simp [FaissVectorStore.storedVectors, h0]
    | some idx =>
      by_cases hd : shape1 vs = idx.d
      · rw [add_vectors_of_some s idx vs ms h0 hz hd] at h
        cases h
        refine ⟨?_, ?_, rfl⟩
        · have : s.ntotal = idx.xb.length := by simp [FaissVectorStore.ntotal, h0]
          simp only [FaissVectorStore.ntotal, List.length_append]
          omega
        · simp [FaissVectorStore.storedVectors, h0]
      · rw [add_vectors_of_mismatch s idx vs ms h0 hz hd] at h
        cases h

theorem add_vectors_keeps_coindexing_witness :
    (FaissVectorStore.mk none []).ntotal = (FaissVectorStore.mk none []).metadata.length
    ∧ ((FaissVectorStore.mk (some ⟨1, [[0]]⟩) [⟨"t", 0, "s"⟩]).ntotal
        = (FaissVectorStore.mk (some ⟨1, [[0]]⟩) [⟨"t", 0, "s"⟩]).metadata.length
      ∧ (FaissVectorStore.mk (some ⟨1, [[0]]⟩) [⟨"t", 0, "s"⟩]).storedVectors
        = (FaissVectorStore.mk none []).storedVectors ++ [[0]]
      ∧ (FaissVectorStore.mk (some ⟨1, [[0]]⟩) [⟨"t", 0, "s"⟩]).metadata
        = (FaissVectorStore.mk none []).metadata ++ [⟨"t", 0, "s"⟩]) :=
  ⟨rfl, add_vectors_keeps_coindexing ⟨none, []⟩ [[0]] [⟨"t", 0, "s"⟩] rfl rfl
    ⟨some ⟨1, [[0]]⟩, [⟨"t", 0, "s"⟩]⟩ rfl⟩

/-- C7: appending dimension-384 vectors to a fresh index and then
dimension-300 vectors to the same index makes the second call fail with
the dimension-mismatch error while the 384-dim data (vectors and
metadata) of the first call is intact; the error is raised by
`index.add` before `metadata.extend` runs, so the failed call changes
nothing. -/
theorem add_vectors_dimension_mismatch_keeps_state (s0 : FaissVectorStore)
    (vs1 vs2 : List (List ℚ)) (ms1 ms2 : List ChunkMeta)
    (h0 : s0.index = none) (h1 : vs1 ≠ []) (hd1 : shape1 vs1 = 384)
    (h2 : vs2 ≠ []) (hd2 : shape1 vs2 = 300) :
    ∃ s1, s0.add_vectors vs1 ms1 = .ok s1
      ∧ s1.index = some ⟨384, vs1⟩
      ∧ s1.metadata = s0.metadata ++ ms1
      ∧ s1.add_vectors vs2 ms2 = Except.error "dimension mismatch" := by
  refine ⟨⟨some ⟨384, vs1⟩, s0.metadata ++ ms1⟩, ?_, rfl, rfl, ?_⟩
  · rw [add_vectors_of_none s0 vs1 ms1 h0 h1, hd1]
  · exact add_vectors_of_mismatch _ ⟨384, vs1⟩ vs2 ms2 rfl h2 (by simp [hd2])

theorem add_vectors_dimension_mismatch_keeps_state_witness :
    ∃ s1, (FaissVectorStore.mk none []).add_vectors [List.replicate 384 0] [] = .ok s1
      ∧ s1.index = some ⟨384, [List.replicate 384 0]⟩
      ∧ s1.metadata = (FaissVectorStore.mk none []).metadata ++ []
      ∧ s1.add_vectors [List.replicate 300 0] [] = Except.error "dimension mismatch" :=
  add_vectors_dimension_mismatch_keeps_state ⟨none, []⟩
    [List.replicate 384 0] [List.replicate 300 0] [] [] rfl
    (List.cons_ne_nil _ _) (List.length_replicate 384 0)
    (List.cons_ne_nil _ _) (List.length_replicate 300 0)

/-- The total translation of a real (non-padding) FAISS hit into an
evidence record, the `some` branch of `toEvidence`. -/
def evOf (s : FaissVectorStore) (p : Int × ℚ) : Evidence :=
  { chunk_id := (s.metadata.getD p.1.toNat ⟨"", 0, ""⟩).chunk_id,
    source := (s.metadata.getD p.1.toNat ⟨"", 0, ""⟩).source,
    text := (s.metadata.getD p.1.toNat ⟨"", 0, ""⟩).text,
    distance := p.2 }

theorem toEvidence_of_ne (s : FaissVectorStore) (p : Int × ℚ) (h : p.1 ≠ -1) :
    s.toEvidence p = some (evOf s p) := by
  simp [FaissVectorStore.toEvidence, h, evOf]

theorem filterMap_toEvidence_replicate (s : FaissVectorStore) (n : Nat) :
    (List.replicate n ((-1 : Int), (0 : ℚ))).filterMap s.toEvidence = [] := by
  induction n with
  | zero => rfl
  | succ m ih => simp [List.replicate_succ, List.filterMap_cons,
      FaissVectorStore.toEvidence, ih]

theorem filterMap_toEvidence_eq_map (s : FaissVectorStore) (l : List (Int × ℚ))
    (h : ∀ p ∈ l, p.1 ≠ (-1 : Int)) :
    l.filterMap s.toEvidence = l.map (evOf s) := by
  induction l with
  | nil => rfl
  | cons a t ih =>
    rw [List.filterMap_cons, toEvidence_of_ne s a (h a (List.mem_cons_self a t)),
      List.map_cons, ih (fun p hp => h p (List.mem_cons_of_mem a hp))]

/-- The scored candidate list of one FAISS query row, before sorting. -/
def scoredOf (idx : FaissIndex) (q : List ℚ) : List (Int × ℚ) :=
  idx.xb.enum.map (fun p => ((p.1 : Int), sqDist q p.2))

theorem scoredOf_fst_ne_neg_one (idx : FaissIndex) (q : List ℚ) :
    ∀ p ∈ scoredOf idx q, p.1 ≠ (-1 : Int) := by
  intro p hp
  simp only [scoredOf, List.mem_map] at hp
  obtain ⟨⟨i, v⟩, _, rfl⟩ := hp
  simp only []
  omega

/-- Evaluation of `search` on an unbuilt store. -/
theorem search_of_none (s : FaissVectorStore) (qm : List (List ℚ)) (k : Nat)
    (h : s.index = none) : s.search qm k = [] := by
  simp [FaissVectorStore.search, h]

/-- Evaluation of `search` on an empty index. -/
theorem search_of_empty (s : FaissVectorStore) (idx : FaissIndex)
    (qm : List (List ℚ)) (k : Nat) (h : s.index = some idx)
    (hz : idx.xb.length = 0) : s.search qm k = [] := by
  simp [FaissVectorStore.search, h, hz]

/-- Evaluation of `search` on a built, non-empty index and a non-empty query
matrix: the sorted-and-truncated scored list of the first query row,
translated to evidence records. -/
theorem search_of_cons (s : FaissVectorStore) (idx : FaissIndex) (q : List ℚ)
    (rest : List (List ℚ)) (k : Nat) (h : s.index = some idx)
    (hz : idx.xb.length ≠ 0) :
    s.search (q :: rest) k
      = (((scoredOf idx q).insertionSort (fun a b => a.2 ≤ b.2)).take k).map (evOf s) := by
  have hstep : s.search (q :: rest) k
      = (idx.searchRow q k).filterMap s.toEvidence := by
    simp [FaissVectorStore.search, h, hz, FaissIndex.faissSearch]
  rw [hstep, FaissIndex.searchRow, List.filterMap_append,
    filterMap_toEvidence_replicate, List.append_nil]
  apply filterMap_toEvidence_eq_map
  intro p hp
  exact scoredOf_fst_ne_neg_one idx q p
    ((List.perm_insertionSort _ _).mem_iff.mp (List.mem_of_mem_take hp))

/-- C3: `search` returns at most `top_k` records, in ascending order of
squared-Euclidean distance to the query; it returns the empty list when
the index was never built or holds no vectors; and when the index holds at
most `top_k` records it returns all of them (a permutation of the full
scored record set of the first query row). -/
theorem search_spec (s : FaissVectorStore) (qm : List (List ℚ)) (k : Nat) :
    (s.search qm k).length ≤ k
    ∧ ((s.search qm k).map (fun r => r.distance)).Pairwise (· ≤ ·)
    ∧ (s.index = none → s.search qm k = [])
    ∧ (∀ idx, s.index = some idx → idx.xb = [] → s.search qm k = [])
    ∧ (∀ idx q rest, s.index = some idx → qm = q :: rest → idx.xb.length ≤ k →
        (s.search qm k).Perm (allEvidence s q)) := by
  refine ⟨?_, ?_, fun h => search_of_none s qm k h,
    fun idx h hxb => search_of_empty s idx qm k h (by simp [hxb]), ?_⟩
  · -- length bound
    cases hidx : s.index with
    | none => simp [search_of_none s qm k hidx]
    | some idx =>
      by_cases hz : idx.xb.length = 0
      · simp [search_of_empty s idx qm k hidx hz]
      · cases qm with
        | nil =>
          simp [FaissVectorStore.search, hidx, hz, FaissIndex.faissSearch]
        | cons q rest =>
          rw [search_of_cons s idx q rest k hidx hz]
          simp only [List.length_map, List.length_take]
          omega
  · -- ascending by distance
    cases hidx : s.index with
    | none => simp [search_of_none s qm k hidx]
    | some idx =>
      by_cases hz : idx.xb.length = 0
      · simp [search_of_empty s idx qm k hidx hz]
      · cases qm with
        | nil =>
          simp [FaissVectorStore.search, hidx, hz, FaissIndex.faissSearch]
        | cons q rest =>
          rw [search_of_cons s idx q rest k hidx hz]
          rw [List.map_map, List.pairwise_map]
          exact List.Pairwise.sublist (List.take_sublist k _)
            (List.sorted_insertionSort (fun a b : Int × ℚ => a.2 ≤ b.2) _)
  · -- completeness below top_k
    intro idx q rest hidx hqm hk
    subst hqm
    by_cases hz : idx.xb.length = 0
    · rw [search_of_empty s idx (q :: rest) k hidx hz]
      have hxb : idx.xb = [] := List.length_eq_zero.mp hz
      simp [allEvidence, hidx, hxb]
    · rw [search_of_cons s idx q rest k hidx hz]
      have hlen : ((scoredOf idx q).insertionSort (fun a b => a.2 ≤ b.2)).length
          ≤ k := by
        rw [List.length_insertionSort]
        simp only [scoredOf, List.length_map, List.enum_length]
        exact hk
      rw [List.take_of_length_le hlen]
      have hperm : (((scoredOf idx q).insertionSort (fun a b => a.2 ≤ b.2)).map
          (evOf s)).Perm ((scoredOf idx q).map (evOf s)) :=
        List.Perm.map _ (List.perm_insertionSort _ _)
      refine hperm.trans ?_
      have : (scoredOf idx q).map (evOf s) = allEvidence s q := by
        simp only [scoredOf, allEvidence, hidx, List.map_map]
        apply List.map_congr_left
        rintro ⟨i, v⟩ _
        simp [evOf, Function.comp, Int.toNat_ofNat]
      rw [this]

theorem search_spec_witness :
    ((FaissVectorStore.mk (some ⟨0, [[], []]⟩)
        [⟨"a", 5, "src"⟩, ⟨"b", 7, "src"⟩]).search [[]] 3).Perm
      (allEvidence (FaissVectorStore.mk (some ⟨0, [[], []]⟩)
        [⟨"a", 5, "src"⟩, ⟨"b", 7, "src"⟩]) [])
    ∧ (FaissVectorStore.mk none []).search [[]] 3 = [] :=
  ⟨(search_spec (FaissVectorStore.mk (some ⟨0, [[], []]⟩)
      [⟨"a", 5, "src"⟩, ⟨"b", 7, "src"⟩]) [[]] 3).2.2.2.2
      ⟨0, [[], []]⟩ [] [] rfl rfl (by decide),
   (search_spec (FaissVectorStore.mk none []) [[]] 3).2.2.1 rfl⟩

/-- The chunks of one source keep, in production order, exactly the ids
`counters src, counters src + 1, ...`: the per-source counter state fully
determines the id sequence, independently of the other keys of the
counter map. -/
theorem chunkIdLoop_filter_ids (raw : List Document) (counters : String → Nat)
    (src : String) :
    ((chunkIdLoop counters raw).filter (fun c => c.sourceName = src)).map
        (fun c => c.chunk_id)
      = List.range' (counters src)
          (((chunkIdLoop counters raw).filter (fun c => c.sourceName = src)).length) := by
  induction raw generalizing counters with
  | nil => rfl
  | cons chunk rest ih =>
    by_cases hsrc : (chunk.source.getD "unknown") = src
    · have hkeep : (chunkIdLoop counters (chunk :: rest)).filter
          (fun c => c.sourceName = src)
          = ⟨chunk.page_content, chunk.source, counters (chunk.source.getD "unknown")⟩
            :: (chunkIdLoop (fun s => if s = chunk.source.getD "unknown"
                  then counters (chunk.source.getD "unknown") + 1 else counters s)
                rest).filter (fun c => c.sourceName = src) := by
        simp [chunkIdLoop, List.filter_cons, TaggedChunk.sourceName, hsrc]
      rw [hkeep]
      simp only [List.map_cons, List.length_cons, List.range'_succ]
      rw [ih, hsrc]
      simp
    · have hdrop : (chunkIdLoop counters (chunk :: rest)).filter
          (fun c => c.sourceName = src)
          = (chunkIdLoop (fun s => if s = chunk.source.getD "unknown"
                then counters (chunk.source.getD "unknown") + 1 else counters s)
              rest).filter (fun c => c.sourceName = src) := by
        simp [chunkIdLoop, List.filter_cons, TaggedChunk.sourceName, hsrc]
      have hns : ¬ (src = chunk.source.getD "unknown") := fun hc => hsrc hc.symm
      rw [hdrop, ih, if_neg hns]

/-- C4: `chunk_documents` assigns, within each distinct source, exactly the
chunk ids `0..n-1` in production order — strictly increasing, gapless, and
independent of the chunks of other sources; an empty input yields an empty
output rather than an error. -/
theorem chunk_documents_per_source_ids (split : List Document → List Document)
    (docs : List Document) (src : String) :
    chunk_documents split [] = []
    ∧ ((chunk_documents split docs).filter (fun c => c.sourceName = src)).map
        (fun c => c.chunk_id)
      = List.range (((chunk_documents split docs).filter
          (fun c => c.sourceName = src)).length) := by
  refine ⟨rfl, ?_⟩
  cases docs with
  | nil => rfl
  | cons d ds =>
    rw [List.range_eq_range']
    exact chunkIdLoop_filter_ids (split (d :: ds)) (fun _ => 0) src

/-- C9: `verify_consistency` never aborts a request on retrieval or judge
failure: an empty evidence set yields prediction `1` with the
benefit-of-doubt rationale (which contains `"No evidence"`), a judge that
fails to respond yields prediction `1` with rationale `"API Error"`, and a
malformed judge response yields prediction `1` with rationale
`"JSON Parse Error"`. -/
theorem verify_consistency_default_verdicts (encode : String → List ℚ)
    (extractFacts : String → String → String → List String)
    (judge : Row → List Evidence → JudgeReply) (row : Row)
    (store : FaissVectorStore) :
    (get_evidence_for_row encode row store [clean_text (row.content.getD "")] = [] →
      verify_consistency encode extractFacts judge row store
          = ⟨1, some "No evidence found (Benefit of Doubt)"⟩
        ∧ strContains "No evidence found (Benefit of Doubt)" "No evidence")
    ∧ (∀ ev, get_evidence_for_row encode row store [clean_text (row.content.getD "")] = ev →
        ev ≠ [] →
        (judge row ev = .apiFailure →
          verify_consistency encode extractFacts judge row store = ⟨1, some "API Error"⟩)
        ∧ (∀ raw, judge row ev = .malformed raw →
          verify_consistency encode extractFacts judge row store
            = ⟨1, some "JSON Parse Error"⟩)) := by
  constructor
  · intro h
    refine ⟨?_, "", " found (Benefit of Doubt)", rfl⟩
    simp [verify_consistency, retrievalStrategyIsFacts, h]
  · intro ev hev hne
    cases ev with
    | nil => exact absurd rfl hne
    | cons e t =>
      constructor
      · intro hj
        simp [verify_consistency, retrievalStrategyIsFacts, hev, hj]
      · intro raw hj
        simp [verify_consistency, retrievalStrategyIsFacts, hev, hj]

theorem verify_consistency_default_verdicts_witness :
    (verify_consistency (fun _ => []) (fun _ _ _ => []) (fun _ _ => .parsed none none)
        ⟨none, none, none⟩ (FaissVectorStore.mk none [])
        = ⟨1, some "No evidence found (Benefit of Doubt)"⟩
      ∧ strContains "No evidence found (Benefit of Doubt)" "No evidence")
    ∧ verify_consistency (fun _ => []) (fun _ _ _ => []) (fun _ _ => .apiFailure)
        ⟨none, none, none⟩ (FaissVectorStore.mk (some ⟨0, [[]]⟩) [⟨"a", 5, "src"⟩])
        = ⟨1, some "API Error"⟩
    ∧ verify_consistency (fun _ => []) (fun _ _ _ => []) (fun _ _ => .malformed "x")
        ⟨none, none, none⟩ (FaissVectorStore.mk (some ⟨0, [[]]⟩) [⟨"a", 5, "src"⟩])
        = ⟨1, some "JSON Parse Error"⟩ :=
  ⟨(verify_consistency_default_verdicts (fun _ => []) (fun _ _ _ => [])
      (fun _ _ => .parsed none none) ⟨none, none, none⟩ ⟨none, []⟩).1 rfl,
   ((verify_consistency_default_verdicts (fun _ => []) (fun _ _ _ => [])
      (fun _ _ => .apiFailure) ⟨none, none, none⟩ ⟨some ⟨0, [[]]⟩, [⟨"a", 5, "src"⟩]⟩).2
      [⟨5, "src", "a", 0⟩] rfl (List.cons_ne_nil _ _)).1 rfl,
   ((verify_consistency_default_verdicts (fun _ => []) (fun _ _ _ => [])
      (fun _ _ => .malformed "x") ⟨none, none, none⟩ ⟨some ⟨0, [[]]⟩, [⟨"a", 5, "src"⟩]⟩).2
      [⟨5, "src", "a", 0⟩] rfl (List.cons_ne_nil _ _)).2 "x" rfl⟩

/-! ## Structure of the evidence-aggregation fold -/

/-- The per-fact retrieval of `get_evidence_for_row`: encode the query text
and search the per-source store with `top_k=3`. -/
def searchFor (encode : String → List ℚ) (row : Row) (store : FaissVectorStore)
    (fact : String) : List Evidence :=
  store.search [encode (queryText row fact)] 3

/-- The inner result loop over one search's results. -/
def collectList (m : List (Nat × Evidence)) (rs : List Evidence) :
    List (Nat × Evidence) :=
  rs.foldl collectOne m

/-- The whole fact loop of `get_evidence_for_row`: the state of the
insertion-ordered `collected_chunks` dict. -/
def factsFold (encode : String → List ℚ) (row : Row) (store : FaissVectorStore)
    (m : List (Nat × Evidence)) (facts : List String) : List (Nat × Evidence) :=
  facts.foldl (fun m fact => collectList m (searchFor encode row store fact)) m

/-- The sort-by-distance / take-10 / sort-by-chunk-id postlude applied to the
collected values. -/
def postprocess (l : List Evidence) : List Evidence :=
  ((l.insertionSort (fun a b => a.distance ≤ b.distance)).take 10).insertionSort
    (fun a b => a.chunk_id ≤ b.chunk_id)

theorem get_evidence_for_row_eq (encode : String → List ℚ) (row : Row)
    (store : FaissVectorStore) (facts : List String) :
    get_evidence_for_row encode row store facts
      = postprocess ((factsFold encode row store [] facts).map Prod.snd) := rfl

theorem collectOne_pos (m : List (Nat × Evidence)) (r : Evidence)
    (h : (m.map Prod.fst).contains r.chunk_id = true) : collectOne m r = m := by
  unfold collectOne
  rw [if_pos h]

theorem collectOne_neg (m : List (Nat × Evidence)) (r : Evidence)
    (h : ¬ (m.map Prod.fst).contains r.chunk_id = true) :
    collectOne m r = m ++ [(r.chunk_id, r)] := by
  unfold collectOne
  rw [if_neg h]

theorem keys_collectOne_mono (m : List (Nat × Evidence)) (r : Evidence) :
    m.map Prod.fst ⊆ (collectOne m r).map Prod.fst := by
  by_cases h : (m.map Prod.fst).contains r.chunk_id = true
  · rw [collectOne_pos m r h]
    exact List.Subset.refl _
  · rw [collectOne_neg m r h, List.map_append]
    exact List.subset_append_left _ _

theorem mem_keys_collectOne (m : List (Nat × Evidence)) (r : Evidence) :
    r.chunk_id ∈ (collectOne m r).map Prod.fst := by
  by_cases h : (m.map Prod.fst).contains r.chunk_id = true
  · rw [collectOne_pos m r h]
    exact List.elem_iff.mp h
  · rw [collectOne_neg m r h, List.map_append]
    simp

theorem collectList_cons (m : List (Nat × Evidence)) (r : Evidence)
    (t : List Evidence) : collectList m (r :: t) = collectList (collectOne m r) t := rfl

theorem keys_collectList_mono (rs : List Evidence) :
    ∀ m, m.map Prod.fst ⊆ (collectList m rs).map Prod.fst := by
  induction rs with
  | nil => exact fun m => List.Subset.refl _
  | cons r t ih =>
    intro m
    rw [collectList_cons]
    exact fun x hx => ih (collectOne m r) (keys_collectOne_mono m r hx)

theorem cid_mem_keys_collectList (rs : List Evidence) :
    ∀ m, ∀ r ∈ rs, r.chunk_id ∈ (collectList m rs).map Prod.fst := by
  induction rs with
  | nil => intro m r h; cases h
  | cons a t ih =>
    intro m r hr
    rw [collectList_cons]
    rcases List.mem_cons.mp hr with rfl | hr2
    · exact keys_collectList_mono t (collectOne m r) (mem_keys_collectOne m r)
    · exact ih (collectOne m a) r hr2

theorem collectList_of_mem_keys (rs : List Evidence) (m : List (Nat × Evidence))
    (h : ∀ r ∈ rs, r.chunk_id ∈ m.map Prod.fst) : collectList m rs = m := by
  induction rs with
  | nil => rfl
  | cons a t ih =>
    rw [collectList_cons, collectOne_pos m a
      (List.elem_iff.mpr (h a (List.mem_cons_self a t)))]
    exact ih (fun r hr => h r (List.mem_cons_of_mem a hr))

theorem factsFold_cons (encode : String → List ℚ) (row : Row)
    (store : FaissVectorStore) (m : List (Nat × Evidence)) (f : String)
    (l : List String) :
    factsFold encode row store m (f :: l)
      = factsFold encode row store (collectList m (searchFor encode row store f)) l := rfl

theorem factsFold_append (encode : String → List ℚ) (row : Row)
    (store : FaissVectorStore) (m : List (Nat × Evidence)) (l1 l2 : List String) :
    factsFold encode row store m (l1 ++ l2)
      = factsFold encode row store (factsFold encode row store m l1) l2 := by
  simp [factsFold, List.foldl_append]

theorem keys_factsFold_mono (encode : String → List ℚ) (row : Row)
    (store : FaissVectorStore) (facts : List String) :
    ∀ m, m.map Prod.fst ⊆ (factsFold encode row store m facts).map Prod.fst := by
  induction facts with
  | nil => exact fun m => List.Subset.refl _
  | cons g gs ih =>
    intro m
    rw [factsFold_cons]
    exact fun x hx => ih _ (keys_collectList_mono _ m hx)

theorem searchFor_sub_keys_factsFold (encode : String → List ℚ) (row : Row)
    (store : FaissVectorStore) (facts : List String) (f : String) (hf : f ∈ facts) :
    ∀ m, ∀ r ∈ searchFor encode row store f,
      r.chunk_id ∈ (factsFold encode row store m facts).map Prod.fst := by
  induction facts with
  | nil => cases hf
  | cons g gs ih =>
    intro m r hr
    rw [factsFold_cons]
    rcases List.mem_cons.mp hf with rfl | hf2
    · exact keys_factsFold_mono encode row store gs _
        (cid_mem_keys_collectList _ m r hr)
    · exact ih hf2 _ r hr

/-- Re-querying a fact already queried earlier leaves the collected dict
unchanged: all its chunk ids are already keys. -/
theorem factsFold_duplicate (encode : String → List ℚ) (row : Row)
    (store : FaissVectorStore) (pre post : List String) (f : String)
    (m : List (Nat × Evidence)) (hf : f ∈ pre) :
    factsFold encode row store m (pre ++ f :: post)
      = factsFold encode row store m (pre ++ post) := by
  rw [factsFold_append, factsFold_cons,
    collectList_of_mem_keys _ _ (fun r hr =>
      searchFor_sub_keys_factsFold encode row store pre f hf m r hr),
    ← factsFold_append]

/-- C6: evidence aggregation is idempotent under query duplication — with a
deterministic encoder and store, a fact string occurring a second time
contributes nothing, so dropping the duplicate occurrence leaves the final
evidence list unchanged. -/
theorem get_evidence_idempotent_under_duplicate (encode : String → List ℚ)
    (row : Row) (store : FaissVectorStore) (pre post : List String) (f : String)
    (hf : f ∈ pre) :
    get_evidence_for_row encode row store (pre ++ f :: post)
      = get_evidence_for_row encode row store (pre ++ post) := by
  rw [get_evidence_for_row_eq, get_evidence_for_row_eq,
    factsFold_duplicate encode row store pre post f [] hf]

theorem get_evidence_idempotent_under_duplicate_witness :
    get_evidence_for_row (fun _ => []) ⟨none, none, none⟩
        (FaissVectorStore.mk (some ⟨0, [[]]⟩) [⟨"a", 5, "src"⟩]) ["f", "f"]
      = get_evidence_for_row (fun _ => []) ⟨none, none, none⟩
        (FaissVectorStore.mk (some ⟨0, [[]]⟩) [⟨"a", 5, "src"⟩]) ["f"] :=
  get_evidence_idempotent_under_duplicate (fun _ => []) ⟨none, none, none⟩
    ⟨some ⟨0, [[]]⟩, [⟨"a", 5, "src"⟩]⟩ ["f"] [] "f" (List.mem_cons_self "f" [])

/-! ## Invariants of the collected dict: keys are the chunk ids, without
duplicates, drawn from the retrieved results -/

theorem collectOne_fst_eq_cid (m : List (Nat × Evidence)) (r : Evidence)
    (h : ∀ p ∈ m, p.1 = p.2.chunk_id) :
    ∀ p ∈ collectOne m r, p.1 = p.2.chunk_id := by
  by_cases hc : (m.map Prod.fst).contains r.chunk_id = true
  · rw [collectOne_pos m r hc]; exact h
  · rw [collectOne_neg m r hc]
    intro p hp
    rcases List.mem_append.mp hp with hp | hp
    · exact h p hp
    · rw [List.mem_singleton.mp hp]

theorem collectList_fst_eq_cid (rs : List Evidence) :
    ∀ m, (∀ p ∈ m, p.1 = p.2.chunk_id) →
      ∀ p ∈ collectList m rs, p.1 = p.2.chunk_id := by
  induction rs with
  | nil => exact fun m h => h
  | cons a t ih =>
    intro m h
    rw [collectList_cons]
    exact ih (collectOne m a) (collectOne_fst_eq_cid m a h)

theorem factsFold_fst_eq_cid (encode : String → List ℚ) (row : Row)
    (store : FaissVectorStore) (facts : List String) :
    ∀ m, (∀ p ∈ m, p.1 = p.2.chunk_id) →
      ∀ p ∈ factsFold encode row store m facts, p.1 = p.2.chunk_id := by
  induction facts with
  | nil => exact fun m h => h
  | cons g gs ih =>
    intro m h
    rw [factsFold_cons]
    exact ih _ (collectList_fst_eq_cid _ m h)

theorem keys_collectOne_nodup (m : List (Nat × Evidence)) (r : Evidence)
    (h : (m.map Prod.fst).Nodup) : ((collectOne m r).map Prod.fst).Nodup := by
  by_cases hc : (m.map Prod.fst).contains r.chunk_id = true
  · rw [collectOne_pos m r hc]; exact h
  · rw [collectOne_neg m r hc, List.map_append]
    refine List.nodup_append.mpr ⟨h, by simp, ?_⟩
    intro a ha hb
    rw [show a = r.chunk_id by simpa using hb] at ha
    exact hc (List.elem_iff.mpr ha)

theorem keys_collectList_nodup (rs : List Evidence) :
    ∀ m, (m.map Prod.fst).Nodup → ((collectList m rs).map Prod.fst).Nodup := by
  induction rs with
  | nil => exact fun m h => h
  | cons a t ih =>
    intro m h
    rw [collectList_cons]
    exact ih (collectOne m a) (keys_collectOne_nodup m a h)

theorem keys_factsFold_nodup (encode : String → List ℚ) (row : Row)
    (store : FaissVectorStore) (facts : List String) :
    ∀ m, (m.map Prod.fst).Nodup →
      ((factsFold encode row store m facts).map Prod.fst).Nodup := by
  induction facts with
  | nil => exact fun m h => h
  | cons g gs ih =>
    intro m h
    rw [factsFold_cons]
    exact ih _ (keys_collectList_nodup _ m h)

theorem keys_collectOne_sub (m : List (Nat × Evidence)) (r : Evidence) :
    (collectOne m r).map Prod.fst ⊆ m.map Prod.fst ++ [r.chunk_id] := by
  by_cases hc : (m.map Prod.fst).contains r.chunk_id = true
  · rw [collectOne_pos m r hc]
    exact List.subset_append_left _ _
  · rw [collectOne_neg m r hc, List.map_append]
    exact List.Subset.refl _

theorem keys_collectList_sub (rs : List Evidence) :
    ∀ m, (collectList m rs).map Prod.fst
      ⊆ m.map Prod.fst ++ rs.map (fun r => r.chunk_id) := by
  induction rs with
  | nil => intro m x hx; simp_all [collectList]
  | cons a t ih =>
    intro m x hx
    rw [collectList_cons] at hx
    have h1 := ih (collectOne m a) hx
    simp only [List.mem_append] at h1 ⊢
    rcases h1 with h1 | h1
    · have h2 := keys_collectOne_sub m a h1
      simp only [List.mem_append, List.mem_singleton] at h2
      rcases h2 with h2 | h2
      · exact Or.inl h2
      · exact Or.inr (by simp [h2])
    · exact Or.inr (by simp [h1])

theorem retrievedChunkIds_cons (encode : String → List ℚ) (row : Row)
    (store : FaissVectorStore) (g : String) (gs : List String) :
    retrievedChunkIds encode row store (g :: gs)
      = (searchFor encode row store g).map (fun r => r.chunk_id)
        ++ retrievedChunkIds encode row store gs := by
  simp [retrievedChunkIds, searchFor]

theorem keys_factsFold_sub (encode : String → List ℚ) (row : Row)
    (store : FaissVectorStore) (facts : List String) :
    ∀ m, (factsFold encode row store m facts).map Prod.fst
      ⊆ m.map Prod.fst ++ retrievedChunkIds encode row store facts := by
  induction facts with
  | nil => intro m x hx; simp_all [factsFold, retrievedChunkIds]
  | cons g gs ih =>
    intro m x hx
    rw [factsFold_cons] at hx
    have h1 := ih _ hx
    simp only [List.mem_append] at h1 ⊢
    rw [retrievedChunkIds_cons]
    simp only [List.mem_append]
    rcases h1 with h1 | h1
    · have h2 := keys_collectList_sub _ m h1
      simp only [List.mem_append] at h2
      tauto
    · tauto

/-- A duplicate-free list of naturals contained in `B` is no longer than
`B.dedup`. -/
theorem nodup_length_le_dedup (A B : List Nat) (hA : A.Nodup) (hsub : A ⊆ B) :
    A.length ≤ B.dedup.length := by
  rw [← List.toFinset_card_of_nodup hA, ← List.card_toFinset]
  exact Finset.card_le_card
    (fun x hx => List.mem_toFinset.mpr (hsub (List.mem_toFinset.mp hx)))

theorem postprocess_length (l : List Evidence) :
    (postprocess l).length = min 10 l.length := by
  simp [postprocess, List.length_insertionSort, List.length_take]

theorem postprocess_pairwise_ne (l : List Evidence)
    (h : l.Pairwise (fun a b => a.chunk_id ≠ b.chunk_id)) :
    (postprocess l).Pairwise (fun a b => a.chunk_id ≠ b.chunk_id) := by
  have hsym : ∀ {x y : Evidence}, x.chunk_id ≠ y.chunk_id → y.chunk_id ≠ x.chunk_id :=
    fun hxy => hxy.symm
  unfold postprocess
  have h1 := ((List.perm_insertionSort (fun a b : Evidence => a.distance ≤ b.distance)
    l).pairwise_iff hsym).mpr h
  have h2 := List.Pairwise.sublist (List.take_sublist 10 _) h1
  exact ((List.perm_insertionSort (fun a b : Evidence => a.chunk_id ≤ b.chunk_id)
    _).pairwise_iff hsym).mpr h2

/-- C5: the final evidence list is capped by 10 and by the number of
distinct chunk ids retrieved across all queries, and is strictly ascending
by chunk id (hence free of duplicate chunk ids). -/
theorem evidence_capped_dedup_ordered (encode : String → List ℚ) (row : Row)
    (store : FaissVectorStore) (facts : List String) :
    (get_evidence_for_row encode row store facts).length ≤ 10
    ∧ (get_evidence_for_row encode row store facts).length
        ≤ (retrievedChunkIds encode row store facts).dedup.length
    ∧ (get_evidence_for_row encode row store facts).Pairwise
        (fun a b => a.chunk_id < b.chunk_id) := by
  have hkeysnodup : ((factsFold encode row store [] facts).map Prod.fst).Nodup :=
    keys_factsFold_nodup encode row store facts [] (by simp)
  have hwf : ∀ p ∈ factsFold encode row store [] facts, p.1 = p.2.chunk_id :=
    factsFold_fst_eq_cid encode row store facts [] (by simp)
  have hmapcid : ((factsFold encode row store [] facts).map Prod.snd).map
      (fun r => r.chunk_id) = (factsFold encode row store [] facts).map Prod.fst := by
    rw [List.map_map]
    exact List.map_congr_left (fun p hp => (hwf p hp).symm)
  refine ⟨?_, ?_, ?_⟩
  · rw [get_evidence_for_row_eq, postprocess_length]
    exact min_le_left _ _
  · rw [get_evidence_for_row_eq, postprocess_length]
    have hsub : (factsFold encode row store [] facts).map Prod.fst
        ⊆ retrievedChunkIds encode row store facts := by
      intro x hx
      have := keys_factsFold_sub encode row store facts [] hx
      simpa using this
    calc min 10 ((factsFold encode row store [] facts).map Prod.snd).length
        ≤ ((factsFold encode row store [] facts).map Prod.snd).length :=
          min_le_right _ _
      _ = ((factsFold encode row store [] facts).map Prod.fst).length := by simp
      _ ≤ (retrievedChunkIds encode row store facts).dedup.length :=
          nodup_length_le_dedup _ _ hkeysnodup hsub
  · rw [get_evidence_for_row_eq]
    have hnodupcid : (((factsFold encode row store [] facts).map Prod.snd).map
        (fun r => r.chunk_id)).Nodup := by
      rw [hmapcid]; exact hkeysnodup
    have hne : ((factsFold encode row store [] facts).map Prod.snd).Pairwise
        (fun a b => a.chunk_id ≠ b.chunk_id) := List.pairwise_map.mp hnodupcid
    have hsorted : (postprocess ((factsFold encode row store [] facts).map
        Prod.snd)).Pairwise (fun a b => a.chunk_id ≤ b.chunk_id) :=
      List.sorted_insertionSort _ _
    exact ((postprocess_pairwise_ne _ hne).and hsorted).imp
      (fun hp => Nat.lt_of_le_of_ne hp.2 hp.1)

/-! ## Equivalence of the collected dict with first-seen deduplication -/

/-- First-seen deduplication by `chunk_id`: keep each result's first
occurrence, in encounter order.  Both the insertion-ordered dict of the
code and the key-then-lookup reading of the spec reduce to this. -/
def firstSeenByChunkId : List Evidence → List Evidence
  | [] => []
  | r :: rs => r :: firstSeenByChunkId (rs.filter (fun x => x.chunk_id ≠ r.chunk_id))
termination_by l => l.length
decreasing_by exact Nat.lt_succ_of_le (List.length_filter_le _ _)

theorem firstSeenByChunkId_subset (l : List Evidence) : firstSeenByChunkId l ⊆ l := by
  induction l using firstSeenByChunkId.induct with
  | case1 => simp [firstSeenByChunkId]
  | case2 r rs ih =>
    rw [firstSeenByChunkId]
    intro x hx
    rcases List.mem_cons.mp hx with rfl | hx2
    · exact List.mem_cons_self _ _
    · exact List.mem_cons_of_mem _ (List.mem_of_mem_filter (ih hx2))

theorem filter_not_contains_append (t : List Evidence) (ks : List Nat) (c : Nat) :
    t.filter (fun x => !((ks ++ [c]).contains x.chunk_id))
      = (t.filter (fun x => !(ks.contains x.chunk_id))).filter
          (fun x => x.chunk_id ≠ c) := by
  rw [List.filter_filter]
  apply List.filter_congr
  intro x _
  by_cases h1 : x.chunk_id = c <;> by_cases h2 : x.chunk_id ∈ ks <;> simp [h1, h2]

/-- The values of the collected dict are the first-seen deduplication of the
results not already keyed when the fold started. -/
theorem collectList_map_snd (l : List Evidence) :
    ∀ m, (collectList m l).map Prod.snd
      = m.map Prod.snd ++ firstSeenByChunkId
          (l.filter (fun r => !((m.map Prod.fst).contains r.chunk_id))) := by
  induction l with
  | nil => intro m; simp [collectList, firstSeenByChunkId]
  | cons a t ih =>
    intro m
    rw [collectList_cons]
    by_cases hc : (m.map Prod.fst).contains a.chunk_id = true
    · have hmem : a.chunk_id ∈ m.map Prod.fst := List.elem_iff.mp hc
      rw [collectOne_pos m a hc, ih m]
      simp [List.filter_cons, hmem]
    · have hmem : a.chunk_id ∉ m.map Prod.fst := fun hm => hc (List.elem_iff.mpr hm)
      rw [collectOne_neg m a hc, ih (m ++ [(a.chunk_id, a)])]
      simp only [List.map_append, List.map_cons, List.map_nil]
      rw [filter_not_contains_append]
      rw [show (a :: t).filter (fun r => !((m.map Prod.fst).contains r.chunk_id))
          = a :: t.filter (fun r => !((m.map Prod.fst).contains r.chunk_id)) from by
        simp [List.filter_cons, hmem]]
      rw [firstSeenByChunkId]
      simp

/-- The `seen_ids` fold of the spec reading: distinct chunk ids in
first-seen order. -/
def seenIdsFold (ks : List Nat) (l : List Evidence) : List Nat :=
  l.foldl (fun ks r => if ks.contains r.chunk_id then ks else ks ++ [r.chunk_id]) ks

theorem seenIdsFold_cons (ks : List Nat) (a : Evidence) (t : List Evidence) :
    seenIdsFold ks (a :: t)
      = seenIdsFold (if ks.contains a.chunk_id then ks else ks ++ [a.chunk_id]) t := rfl

theorem seenIdsFold_eq (l : List Evidence) :
    ∀ ks, seenIdsFold ks l
      = ks ++ (firstSeenByChunkId (l.filter (fun r => !(ks.contains r.chunk_id)))).map
          (fun r => r.chunk_id) := by
  induction l with
  | nil => intro ks; simp [seenIdsFold, firstSeenByChunkId]
  | cons a t ih =>
    intro ks
    rw [seenIdsFold_cons]
    by_cases hc : ks.contains a.chunk_id = true
    · have hmem : a.chunk_id ∈ ks := List.elem_iff.mp hc
      rw [if_pos hc, ih]
      simp [List.filter_cons, hmem]
    · have hmem : a.chunk_id ∉ ks := fun hm => hc (List.elem_iff.mpr hm)
      rw [if_neg hc, ih]
      rw [filter_not_contains_append]
      rw [show (a :: t).filter (fun r => !(ks.contains r.chunk_id))
          = a :: t.filter (fun r => !(ks.contains r.chunk_id)) from by
        simp [List.filter_cons, hmem]]
      rw [firstSeenByChunkId]
      simp

/-- Filtering away only elements the predicate cannot match leaves `find?`
unchanged. -/
theorem find?_filter_of_imp (l : List Evidence) (p q : Evidence → Bool)
    (h : ∀ x, p x = true → q x = true) :
    (l.filter q).find? p = l.find? p := by
  induction l with
  | nil => rfl
  | cons a t ih =>
    rw [List.filter_cons]
    by_cases hq : q a = true
    · rw [if_pos hq]
      cases hp : p a <;> simp [List.find?_cons, hp, ih]
    · rw [if_neg hq]
      have hp : p a = false := by
        cases hpa : p a
        · rfl
        · exact absurd (h a hpa) hq
      simp [List.find?_cons, hp, ih]

/-- Every element of the first-seen deduplication is the first occurrence of
its chunk id in the underlying list. -/
theorem find?_firstSeenByChunkId (l : List Evidence) :
    ∀ e ∈ firstSeenByChunkId l,
      l.find? (fun r => r.chunk_id == e.chunk_id) = some e := by
  induction l using firstSeenByChunkId.induct with
  | case1 => intro e he; simp [firstSeenByChunkId] at he
  | case2 r rs ih =>
    intro e he
    rw [firstSeenByChunkId] at he
    rcases List.mem_cons.mp he with rfl | he2
    · simp [List.find?_cons]
    · have hmem : e ∈ rs.filter (fun x => decide (x.chunk_id ≠ r.chunk_id)) :=
        firstSeenByChunkId_subset _ he2
      have hne : e.chunk_id ≠ r.chunk_id := by
        simpa using List.of_mem_filter hmem
      have hhead : (r.chunk_id == e.chunk_id) = false := by
        simp [Ne.symm hne]
      rw [List.find?_cons, hhead]
      rw [← find?_filter_of_imp rs (fun x => x.chunk_id == e.chunk_id)
        (fun x => decide (x.chunk_id ≠ r.chunk_id))
        (fun x hx => by
          have : x.chunk_id = e.chunk_id := by simpa using hx
          simp [this, hne])]
      exact ih e he2

theorem filterMap_eq_self (l : List Evidence) (f : Evidence → Option Evidence)
    (h : ∀ e ∈ l, f e = some e) : l.filterMap f = l := by
  induction l with
  | nil => rfl
  | cons a t ih =>
    simp [List.filterMap_cons, h a (List.mem_cons_self a t),
      ih (fun e he => h e (List.mem_cons_of_mem a he))]

/-- The spec reading of the merge — first-seen key order paired with a
first-occurrence lookup — equals first-seen deduplication. -/
theorem spec_merged_eq_firstSeen (l : List Evidence) :
    (seenIdsFold [] l).filterMap (fun cid => l.find? (fun r => r.chunk_id == cid))
      = firstSeenByChunkId l := by
  rw [seenIdsFold_eq]
  simp only [List.nil_append]
  rw [show l.filter (fun r => !(([] : List Nat).contains r.chunk_id)) = l from by simp]
  rw [List.filterMap_map]
  exact filterMap_eq_self _ _ (fun e he => find?_firstSeenByChunkId l e he)

/-- C1: on every store and non-empty fact list, `get_evidence_for_row`
computes exactly the reference evidence aggregation of spec §4.4:
per-query `top_k=3` searches, first-seen merge keyed by `chunk_id`,
ascending sort by distance, truncation to 10, ascending re-sort by
`chunk_id`. -/
theorem get_evidence_matches_spec_aggregation (encode : String → List ℚ)
    (row : Row) (store : FaissVectorStore) (facts : List String)
    (hne : facts ≠ []) :
    get_evidence_for_row encode row store facts
      = specEvidenceAggregation encode row store facts := by
  have hflat : factsFold encode row store [] facts
      = collectList [] ((facts.map (searchFor encode row store)).flatten) := by
    simp [factsFold, collectList, List.foldl_flatten, List.foldl_map]
  have hfix : ((facts.map (searchFor encode row store)).flatten).filter
      (fun r => !(([] : List Nat).contains r.chunk_id))
      = (facts.map (searchFor encode row store)).flatten := by
    rw [show (fun r : Evidence => !(([] : List Nat).contains r.chunk_id))
        = (fun _ => true) from funext fun r => rfl]
    exact List.filter_true _
  have hcode : get_evidence_for_row encode row store facts
      = postprocess (firstSeenByChunkId
          ((facts.map (searchFor encode row store)).flatten)) := by
    rw [get_evidence_for_row_eq, hflat, collectList_map_snd]
    simp only [List.map_nil, List.nil_append]
    rw [hfix]
  have hspec : specEvidenceAggregation encode row store facts
      = postprocess ((seenIdsFold []
          ((facts.map (searchFor encode row store)).flatten)).filterMap
          (fun cid => ((facts.map (searchFor encode row store)).flatten).find?
            (fun r => r.chunk_id == cid))) := rfl
  rw [hcode, hspec, spec_merged_eq_firstSeen]

theorem get_evidence_matches_spec_aggregation_witness :
    (["f", "g"] : List String) ≠ []
    ∧ get_evidence_for_row (fun _ => []) ⟨none, none, none⟩
        (FaissVectorStore.mk (some ⟨0, [[], []]⟩) [⟨"a", 5, "s"⟩, ⟨"b", 3, "s"⟩])
        ["f", "g"]
      = specEvidenceAggregation (fun _ => []) ⟨none, none, none⟩
        (FaissVectorStore.mk (some ⟨0, [[], []]⟩) [⟨"a", 5, "s"⟩, ⟨"b", 3, "s"⟩])
        ["f", "g"] :=
  ⟨List.cons_ne_nil _ _,
   get_evidence_matches_spec_aggregation (fun _ => []) ⟨none, none, none⟩
     ⟨some ⟨0, [[], []]⟩, [⟨"a", 5, "s"⟩, ⟨"b", 3, "s"⟩]⟩ ["f", "g"]
     (List.cons_ne_nil _ _)⟩

end KdshRag
